import Mathlib

/-
Verification of the PINA vectorized differential-operator layer
(`pina/operator.py`) and the R3 adaptive refinement callback
(`pina/callback/refinement/r3_refinement.py`).

The tensor columns are embedded as symbolic exact-arithmetic expressions
over named variables; the reverse-mode gradient primitive of the tensor
engine is embedded as the formal derivative of those expressions.  All
row/batch dimensions are irrelevant to the claims about labels, shapes
and exact values, so a tensor is represented by its last axis: an ordered
list of string labels together with one symbolic column per label.
-/

/-- Modelled from the spec: the differentiable-tensor engine primitive
(§6, §9).  A column of a labeled tensor is a smooth function of the named
input variables; we embed it as a symbolic expression with exact rational
arithmetic, closed under addition and multiplication. -/
inductive Expr where
  | const (q : ℚ)
  | var (s : String)
  | add (a b : Expr)
  | mul (a b : Expr)
  deriving DecidableEq

/-- Modelled from the spec: the reverse-mode gradient of a column with
respect to one named input variable is its formal derivative. -/
def Expr.deriv : Expr → String → Expr
  | .const _, _ => .const 0
  | .var s, x => if s = x then .const 1 else .const 0
  | .add a b, x => .add (a.deriv x) (b.deriv x)
  | .mul a b, x => .add (.mul (a.deriv x) b) (.mul a (b.deriv x))

/-- Exact-arithmetic denotation of a symbolic column at a point given by
an assignment of rationals to the named variables. -/
def Expr.evalQ : Expr → (String → ℚ) → ℚ
  | .const q, _ => q
  | .var s, rho => rho s
  | .add a b, rho => a.evalQ rho + b.evalQ rho
  | .mul a b, rho => a.evalQ rho * b.evalQ rho

/-- Modelled from the spec: the labeled-tensor container (§3, §6,
`pina/label_tensor.py` is outside the analysed sources).  The last axis
carries an ordered list of string labels, one per column; each column is
a symbolic expression. -/
structure LabelTensor where
  labels : List String
  cols : List Expr
  deriving DecidableEq

/-- Modelled from the spec: column lookup by label.  A label is resolved
to the first position carrying it; a missing label yields engine-level
garbage (here the zero column), never a domain-specific error (§7). -/
def LabelTensor.colOf (t : LabelTensor) (l : String) : Expr :=
  t.cols.getD (t.labels.indexOf l) (Expr.const 0)

/-- Modelled from the spec: extraction of a sublist of columns by label,
preserving the requested order (§6). -/
def LabelTensor.extract (t : LabelTensor) (ls : List String) : LabelTensor :=
  ⟨ls, ls.map t.colOf⟩

/-- Modelled from the spec: label-preserving summation of a nonempty list
of same-shape tensors (§6); the labels of the first tensor are kept. -/
def LabelTensor.summation (ts : List LabelTensor) : LabelTensor :=
  match ts with
  | [] => ⟨[], []⟩
  | t :: rest =>
    rest.foldl (fun acc u => ⟨acc.labels, List.zipWith Expr.add acc.cols u.cols⟩) t

/-- The first-derivative label `d<comp>d<var>` (the f-string
`d{c}d{i}` used throughout `operator.py`). -/
def dLab (c i : String) : String := "d" ++ c ++ "d" ++ i

/-- The second-derivative label `dd<comp>` (the f-string `dd{c}`). -/
def ddLab (c : String) : String := "dd" ++ c

/-- The advection label `adv_<comp>` (the f-string `adv_{c}`). -/
def advLab (c : String) : String := "adv_" ++ c

/-- Embedding of `_scalar_grad` (operator.py:73).  The call to
`torch.autograd.grad` with a ones upstream gradient returns, per input
variable, the derivative of the sum of the output columns; the result is
then restricted to the columns of `d` by positional index lookup. -/
def _scalar_grad (output_ input_ : LabelTensor) (d : List String) : List Expr :=
  let upstream := output_.cols.foldr Expr.add (Expr.const 0)
  let grad_out := input_.labels.map (fun x => upstream.deriv x)
  let idxs := d.map (fun i => input_.labels.indexOf i)
  idxs.map (fun j => grad_out.getD j (Expr.const 0))

/-- Embedding of `fast_grad` (operator.py:125). -/
def fast_grad (output_ input_ : LabelTensor) (components d : List String) :
    LabelTensor :=
  if output_.cols.length = 1 then
    let c0 := output_.labels.headD ("")
    ⟨d.map (fun i => dLab c0 i), _scalar_grad output_ input_ d⟩
  else
    let grads := (components.map
      (fun c => _scalar_grad (output_.extract [c]) input_ d)).flatten
    ⟨components.flatMap (fun c => d.map (fun i => dLab c i)), grads⟩

/-- Embedding of `fast_div` (operator.py:168). -/
def fast_div (output_ input_ : LabelTensor) (components d : List String) :
    LabelTensor :=
  let grad_out := fast_grad output_ input_ components d
  let tensors_to_sum :=
    List.zipWith (fun c d_ => grad_out.extract [dLab c d_]) components d
  LabelTensor.summation tensors_to_sum

/-- Embedding of `_scalar_laplacian` (operator.py:99).  The final
`torch.sum(..., dim=-1, keepdim=True)` produces a single column, returned
here as one expression. -/
def _scalar_laplacian (output_ input_ : LabelTensor) (d : List String) : Expr :=
  let first_grad := fast_grad output_ input_ output_.labels d
  let second_grad := fast_grad first_grad input_ first_grad.labels d
  let labels_to_extract := List.zipWith (fun c d_ => dLab c d_) first_grad.labels d
  (second_grad.extract labels_to_extract).cols.foldr Expr.add (Expr.const 0)

/-- Domain-specific errors raised by the operator layer, by Python
exception class. -/
inductive OpError where
  | typeErr (msg : String)
  | runtimeErr (msg : String)
  | valueErr (msg : String)
  deriving DecidableEq

/-- Embedding of `fast_laplacian` (operator.py:199).  It is the only fast
variant with a raise path (the method check on the vector branch), hence
the `Except` result type. -/
def fast_laplacian (output_ input_ : LabelTensor) (components d : List String)
    (method : String) : Except OpError LabelTensor :=
  if output_.cols.length = 1 then
    .ok ⟨components.map (fun c => ddLab c),
         [_scalar_laplacian output_ input_ d]⟩
  else
    let labels := components.map (fun c => ddLab c)
    if method = "std" then
      .ok ⟨labels, components.map
        (fun c => _scalar_laplacian (output_.extract [c]) input_ d)⟩
    else if method = "divgrad" then
      let grads := fast_grad output_ input_ components d
      .ok ⟨labels, (components.map (fun c =>
        (fast_div grads input_ (d.map (fun i => dLab c i)) d).cols)).flatten⟩
    else
      .error (.valueErr ("Invalid method. Available methods are std and divgrad."))

/-- Embedding of `fast_advection` (operator.py:275).  The reshape into
`[..., components, d]`, the transpose, the broadcast multiplication by the
unsqueezed velocity and the sum over the direction axis together compute,
per component `c`, the sum over `j` of `velocity_j * d c d (d_j)`. -/
def fast_advection (output_ input_ : LabelTensor)
    (velocity_field components d : List String) : LabelTensor :=
  let velocity := (output_.extract velocity_field).cols
  let grads := fast_grad output_ input_ components d
  let m := d.length
  let adv := (List.range components.length).map (fun ci =>
    (List.range m).foldr (fun j acc =>
      Expr.add (Expr.mul (velocity.getD j (Expr.const 0))
        (grads.cols.getD (ci * m + j) (Expr.const 0))) acc) (Expr.const 0))
  ⟨components.map (fun c => advLab c), adv⟩

/-- A Python argument that is either a labeled tensor or any other
object (the checked variants type-check their tensor arguments). -/
inductive PyValue where
  | lt (t : LabelTensor)
  | notLT
  deriving DecidableEq

/-- The `components` / `d` argument of a checked operator:
`None`, a single string, or a list of strings. -/
inductive Arg where
  | none
  | str (s : String)
  | list (l : List String)
  deriving DecidableEq

/-- Python truthiness of an `Arg` value: `None`, the empty string and the
empty list are falsy. -/
def Arg.falsy : Arg → Bool
  | .none => true
  | .str s => s.isEmpty
  | .list l => l.isEmpty

/-- The Python expression `a or labels` (operator.py:55): a falsy `a` is
replaced by the full label list. -/
def Arg.orDefault (a : Arg) (labels : List String) : Arg :=
  if a.falsy then .list labels else a

/-- The Python conversion `a if isinstance(a, list) else [a]`
(operator.py:59). -/
def Arg.toStrList : Arg → List String
  | .list l => l
  | .str s => [s]
  | .none => []

/-- Embedding of `_check_values` (operator.py:23).  In Python the checked
wrappers reuse their arguments after the type check succeeded; the
embedding returns the two narrowed tensors together with the normalized
`components` and `d` lists. -/
def _check_values (output_ input_ : PyValue) (components d : Arg) :
    Except OpError (LabelTensor × LabelTensor × List String × List String) :=
  match input_ with
  | .notLT => .error (.typeErr ("Input must be a LabelTensor."))
  | .lt tin =>
    match output_ with
    | .notLT => .error (.typeErr ("Output must be a LabelTensor."))
    | .lt tout =>
      let dl := (d.orDefault tin.labels).toStrList
      let cl := (components.orDefault tout.labels).toStrList
      if dl.all (fun di => tin.labels.contains di) then
        if cl.all (fun c => tout.labels.contains c) then
          .ok (tout, tin, cl, dl)
        else .error (.runtimeErr ("Component label missing from output tensor."))
      else .error (.runtimeErr ("Derivative labels missing from input tensor."))

/-- Embedding of `grad` (operator.py:316). -/
def grad (output_ input_ : PyValue) (components d : Arg) :
    Except OpError LabelTensor := do
  let (tout, tin, cl, dl) ← _check_values output_ input_ components d
  return fast_grad tout tin cl dl

/-- Embedding of `div` (operator.py:348). -/
def div (output_ input_ : PyValue) (components d : Arg) :
    Except OpError LabelTensor := do
  let (tout, tin, cl, dl) ← _check_values output_ input_ components d
  if cl.length ≠ dl.length then
    throw (.valueErr ("Divergence requires components and d to be of the same length."))
  return fast_div tout tin cl dl

/-- Embedding of `laplacian` (operator.py:386).  Faithful to the source:
the `method` argument is accepted but NOT forwarded to `fast_laplacian`
(operator.py:418-420), which therefore always runs with its default
method `std`. -/
def laplacian (output_ input_ : PyValue) (components d : Arg)
    (method : String) : Except OpError LabelTensor := do
  let (tout, tin, cl, dl) ← _check_values output_ input_ components d
  fast_laplacian tout tin cl dl ("std")

/-- Embedding of `advection` (operator.py:423). -/
def advection (output_ input_ : PyValue) (velocity_field : Arg)
    (components d : Arg) : Except OpError LabelTensor := do
  let (tout, tin, cl, dl) ← _check_values output_ input_ components d
  let vf := match velocity_field with
    | .str s => [s]
    | .list l => l
    | .none => []
  if !(vf.all (fun vi => tout.labels.contains vi)) then
    throw (.runtimeErr ("Velocity labels missing from output tensor."))
  if vf.length ≠ dl.length then
    throw (.runtimeErr ("Velocity dimensionality does not match input dimensionality."))
  return fast_advection tout tin vf cl dl

/-- `true` exactly on a `TypeError` result. -/
def isTypeErr : Except OpError LabelTensor → Bool
  | .error (.typeErr _) => true
  | _ => false

/-- `true` exactly on a `RuntimeError` result. -/
def isRuntimeErr : Except OpError LabelTensor → Bool
  | .error (.runtimeErr _) => true
  | _ => false

/-- Argument normalization performed by `_check_values`: Python `or`
defaulting followed by the list conversion. -/
def normalizeArg (a : Arg) (labels : List String) : List String :=
  (a.orDefault labels).toStrList

/-- A point of a condition's domain: one rational coordinate per domain
variable. -/
def Point : Type := List ℚ

/-- Modelled from the spec: the per-condition point population (§3), a
labeled tensor of sample locations — row list plus column labels. -/
structure PointPop where
  labels : List String
  points : List Point

/-- The mean used by `residuals.mean()`; the mean of an empty list is 0. -/
def meanQ (l : List ℚ) : ℚ := l.sum / l.length

/-- Embedding of the residual computation of `R3Refinement.sample`
(r3_refinement.py:68-73): the solver's residual field values at each
point (`target`, one row per point) are mapped through the configured
elementwise loss against a zero target and averaged over all non-batch
axes, yielding one scalar per point. -/
def pointResiduals (target : List (List ℚ)) (lossElem : ℚ → ℚ) : List ℚ :=
  target.map (fun row => meanQ (row.map lossElem))

/-- The row selection `current_points[mask]` for a boolean mask. -/
def maskKeep (points : List Point) (mask : List Bool) : List Point :=
  ((points.zip mask).filter (fun pm => pm.snd)).map (fun pm => pm.fst)

/-- Embedding of `R3Refinement.sample` (r3_refinement.py:56-88).  The
external collaborators are passed explicitly: `target` is the output of
`solver.compute_residual` at the current points, `lossElem` the
configured elementwise loss, `num_old_points` the frozen initial
population size recorded for the condition, and `domainSample n` the
uniform draw `domain.sample(n, "random")`.  The retained rows keep the
input population's labels (line 84) and `LabelTensor.cat` appends the
fresh rows after them (line 87). -/
def R3sample (current : PointPop) (target : List (List ℚ))
    (lossElem : ℚ → ℚ) (num_old_points : ℕ)
    (domainSample : ℕ → PointPop) : PointPop :=
  let residuals := pointResiduals target lossElem
  let labels := current.labels
  let mask := residuals.map (fun r => decide (meanQ residuals < r))
  if mask.any id then
    let pts := maskKeep current.points mask
    let retain_pts := pts.length
    let samples := domainSample (num_old_points - retain_pts)
    ⟨labels, pts ++ samples.points⟩
  else domainSample num_old_points

/-- Modelled from the spec: the `residual_loss` argument of the
refinement callback (§4.2, §6; `pina/utils.check_consistency` and
`pina/loss.LossInterface` are outside the analysed sources).  It is
either a loss class — recognized when it is a subclass of the
elementwise-loss abstraction `LossInterface` or of the torch loss base
`_Loss` — or an already-instantiated loss object, which carries its own
built-in reduction behaviour. -/
inductive PyLossArg where
  | lossClass (isLossInterfaceSub isTorchLossSub : Bool)
  | lossInstance (reducing : Bool)
  deriving DecidableEq

/-- Modelled from the spec: `check_consistency(residual_loss,
(LossInterface, _Loss), subclass=True)` (r3_refinement.py:53) accepts
exactly the recognized elementwise-loss classes; a non-class argument or
an unrecognized class is rejected at once. -/
def check_consistency_subclass : PyLossArg → Bool
  | .lossClass a b => a || b
  | .lossInstance _ => false

/-- The state built by a successful `R3Refinement.__init__`: the loss
callable instantiated with `reduction="none"` (r3_refinement.py:54), so
it never performs built-in reduction. -/
structure R3State where
  lossFnReducing : Bool
  deriving DecidableEq

/-- Construction-time configuration error of the refinement callback. -/
inductive InitError where
  | consistencyErr
  deriving DecidableEq

/-- Embedding of `R3Refinement.__init__` (r3_refinement.py:17-54): the
loss consistency check runs during construction, before any training
epoch; on success the loss is instantiated elementwise. -/
def R3Refinement_init (residual_loss : PyLossArg) : Except InitError R3State :=
  if check_consistency_subclass residual_loss then
    .ok ⟨false⟩
  else .error .consistencyErr

/-- `true` exactly on a successful operator result. -/
def isOkE : Except OpError LabelTensor → Bool
  | .ok _ => true
  | .error _ => false

/-- The first-order column produced by one reverse-mode pass over a
single-column output `f` (the ones-upstream sum contributes the trailing
zero term). -/
def gradT (f : Expr) (i : String) : Expr :=
  Expr.deriv (Expr.add f (Expr.const 0)) i

/-- The diagonal second-order column `d(d f d i)d i` produced by two
nested reverse-mode passes. -/
def lapT (f : Expr) (i : String) : Expr :=
  Expr.deriv (Expr.add (gradT f i) (Expr.const 0)) i

/-- The index list behind a component-major label block: all pairs of a
component and a direction, outer loop over the first list. -/
def pairsL {α β : Type} (l1 : List α) (l2 : List β) : List (α × β) :=
  l1.flatMap (fun a => l2.map (fun b => (a, b)))

/-- Generic list fact: looking up the image of a member at the index of
that member returns its image, because the element found at the first
matching index is the member itself. -/
theorem getD_map_indexOf {α β : Type} [BEq α] [LawfulBEq α]
    (l : List α) (f : α → β) (z : β) {a : α} (h : a ∈ l) :
    (l.map f).getD (l.indexOf a) z = f a := by
  induction l with
  | nil => cases h
  | cons b t ih =>
    by_cases hba : b = a
    · subst hba
      simp [List.indexOf_cons, List.getD]
    · have hmem : a ∈ t := by
        cases h with
        | head => exact absurd rfl hba
        | tail _ h' => exact h'
      have hbeq : (b == a) = false := beq_false_of_ne hba
      simp [List.indexOf_cons, hbeq, List.getD] at *
      simpa [List.getD] using ih hmem

/-- Column lookup in a tensor whose labels and columns are both images of
one index list: if every index whose label collides with `a`'s label also
shares `a`'s column, the lookup returns `a`'s column. -/
theorem colOf_map_build {α : Type} (L : List α) (G : α → String) (F : α → Expr)
    {a : α} (ha : a ∈ L) (hcong : ∀ b ∈ L, G b = G a → F b = F a) :
    (LabelTensor.mk (L.map G) (L.map F)).colOf (G a) = F a := by
  induction L with
  | nil => cases ha
  | cons b t ih =>
    by_cases hba : G b = G a
    · have : F b = F a := hcong b (List.mem_cons_self b t) hba
      simp [LabelTensor.colOf, List.indexOf_cons, hba, List.getD, this]
    · have hmem : a ∈ t := by
        cases ha with
        | head => exact absurd rfl hba
        | tail _ h' => exact h'
      have hbeq : (G b == G a) = false := beq_false_of_ne hba
      have := ih hmem (fun b' hb' => hcong b' (List.mem_cons_of_mem b hb'))
      simpa [LabelTensor.colOf, List.indexOf_cons, hbeq, List.getD] using this

/-- Lookup of a label in a single-column tensor labeled by it. -/
theorem colOf_single (l : String) (e : Expr) :
    (LabelTensor.mk [l] [e]).colOf l = e := by
  simp [LabelTensor.colOf, List.indexOf_cons]

/-- Length of a flat concatenation whose blocks all have length `k`. -/
theorem length_flatMap_const {α β : Type} (l : List α) (g : α → List β) (k : ℕ)
    (h : ∀ a ∈ l, (g a).length = k) : (l.flatMap g).length = l.length * k := by
  induction l with
  | nil => simp
  | cons b t ih =>
    simp only [List.flatMap_cons, List.length_append, List.length_cons]
    rw [h b (List.mem_cons_self b t), ih (fun a ha => h a (List.mem_cons_of_mem b ha))]
    ring

/-- Closed form of the vector branch of `fast_grad`: per component the
upstream is the component column plus the constant zero of the empty
fold, and each requested direction contributes its formal derivative. -/
theorem fast_grad_vector (tout tin : LabelTensor) (cs dd : List String)
    (h1 : tout.cols.length ≠ 1) (hd : ∀ i ∈ dd, i ∈ tin.labels) :
    fast_grad tout tin cs dd =
      ⟨cs.flatMap (fun c => dd.map (fun i => dLab c i)),
       cs.flatMap (fun c => dd.map (fun i => gradT (tout.colOf c) i))⟩ := by
  simp only [fast_grad, if_neg h1]
  refine congrArg (LabelTensor.mk _) ?_
  rw [← List.flatMap_def]
  refine congrArg _ (funext fun c => ?_)
  simp only [_scalar_grad, LabelTensor.extract, List.map_cons, List.map_nil,
    List.foldr_cons, List.foldr_nil, List.map_map]
  refine List.map_congr_left (fun i hi => ?_)
  simp only [Function.comp]
  exact getD_map_indexOf tin.labels _ _ (hd i hi)

/-- Closed form of the scalar branch of `fast_grad`. -/
theorem fast_grad_scalar (tout tin : LabelTensor) (cs dd : List String)
    (h1 : tout.cols.length = 1) (hd : ∀ i ∈ dd, i ∈ tin.labels) :
    fast_grad tout tin cs dd =
      ⟨dd.map (fun i => dLab (tout.labels.headD ("")) i),
       dd.map (fun i =>
         Expr.deriv (tout.cols.foldr Expr.add (Expr.const 0)) i)⟩ := by
  simp only [fast_grad, if_pos h1]
  refine congrArg (LabelTensor.mk _) ?_
  simp only [_scalar_grad, List.map_map]
  refine List.map_congr_left (fun i hi => ?_)
  simp only [Function.comp]
  exact getD_map_indexOf tin.labels _ _ (hd i hi)

/-- Evaluation of the `torch.sum` fold is the sum of the evaluations. -/
theorem evalQ_foldr_add (l : List Expr) (rho : String → ℚ) :
    (l.foldr Expr.add (Expr.const 0)).evalQ rho =
      (l.map (fun e => e.evalQ rho)).sum := by
  induction l with
  | nil => simp [Expr.evalQ]
  | cons e t ih => simp [Expr.evalQ, ih]

/-- Cancellation of a shared prefix of a string concatenation. -/
theorem str_append_cancel (p s t : String) (h : p ++ s = p ++ t) : s = t := by
  have hd : (p ++ s).data = (p ++ t).data := congrArg String.data h
  rw [String.data_append, String.data_append] at hd
  have h2 := List.append_cancel_left hd
  cases s
  cases t
  exact congrArg String.mk h2

/-- The derivative labels of a fixed component are distinct for distinct
directions. -/
theorem dLab_inj_right (c : String) {i j : String} (h : dLab c i = dLab c j) :
    i = j :=
  str_append_cancel ("d" ++ c ++ "d") i j h

/-- `LabelTensor.summation` over a nonempty list of single-column tensors
produces a single column whose value is the sum of the columns. -/
theorem summation_single_cols (ts : List LabelTensor)
    (h : ∀ t ∈ ts, ∃ e, t.cols = [e]) (hne : ts ≠ []) :
    ∃ e, (LabelTensor.summation ts).cols = [e] ∧
      ∀ rho, e.evalQ rho =
        (ts.map (fun t => (t.cols.headD (Expr.const 0)).evalQ rho)).sum := by
  match ts, hne with
  | t :: rest, _ =>
    obtain ⟨e0, he0⟩ := h t (List.mem_cons_self t rest)
    have haux : ∀ (r : List LabelTensor) (acc : LabelTensor) (e : Expr),
        acc.cols = [e] → (∀ u ∈ r, ∃ e', u.cols = [e']) →
        ∃ e2, (r.foldl (fun a u =>
            LabelTensor.mk a.labels (List.zipWith Expr.add a.cols u.cols)) acc).cols = [e2] ∧
          ∀ rho, e2.evalQ rho = e.evalQ rho +
            (r.map (fun u => (u.cols.headD (Expr.const 0)).evalQ rho)).sum := by
      intro r
      induction r with
      | nil => exact fun acc e hacc _ => ⟨e, hacc, fun rho => by simp⟩
      | cons u r2 ih =>
        intro acc e hacc hr
        obtain ⟨eu, heu⟩ := hr u (List.mem_cons_self u r2)
        obtain ⟨e2, he2, hev⟩ := ih (LabelTensor.mk acc.labels
            (List.zipWith Expr.add acc.cols u.cols)) (Expr.add e eu)
          (by simp [hacc, heu]) (fun v hv => hr v (List.mem_cons_of_mem u hv))
        refine ⟨e2, by simpa using he2, fun rho => ?_⟩
        rw [hev rho]
        simp [Expr.evalQ, heu, Expr.evalQ]
        ring
    obtain ⟨e2, he2, hev⟩ := haux rest t e0 he0
      (fun u hu => h u (List.mem_cons_of_mem t hu))
    refine ⟨e2, he2, fun rho => ?_⟩
    rw [hev rho]
    simp [he0]

/-- Flattening blocks that are all singletons with known evaluations. -/
theorem flatten_single_eval {α : Type} (l : List α) (g : α → List Expr)
    (S : α → (String → ℚ) → ℚ)
    (h : ∀ c ∈ l, ∃ e, g c = [e] ∧ ∀ rho, e.evalQ rho = S c rho)
    (rho : String → ℚ) :
    ((l.map g).flatten).map (fun e => e.evalQ rho) = l.map (fun c => S c rho) := by
  induction l with
  | nil => simp
  | cons b t ih =>
    obtain ⟨e, hg, he⟩ := h b (List.mem_cons_self b t)
    simp only [List.map_cons, List.flatten_cons, List.map_append, hg]
    rw [ih (fun c hc => h c (List.mem_cons_of_mem b hc))]
    simp [he rho]

/-- C1: the checked `laplacian` is documented to raise a `ValueError` for
any method other than `std` and `divgrad`, but the wrapper never forwards
its `method` argument to `fast_laplacian` (operator.py:418-420), so a
call with `method="explode"` on well-labeled tensors succeeds and
silently returns the `std` Laplacian instead of failing. -/
theorem laplacian_ignores_method :
    isOkE (laplacian
      (.lt ⟨["u", "v"],
        [Expr.mul (Expr.var ("x")) (Expr.var ("x")), Expr.var ("y")]⟩)
      (.lt ⟨["x", "y"], [Expr.var ("x"), Expr.var ("y")]⟩)
      Arg.none Arg.none ("explode")) = true := by decide

/-- C7 counterexample: `fast_laplacian` called on a vector-valued output
with the method string `"explode"` raises the domain-specific
`ValueError` of operator.py:268-270, so it is not true that no fast
operator variant ever raises a domain-specific validation error. -/
theorem fast_laplacian_raises_on_bad_method :
    fast_laplacian ⟨["u", "v"], [Expr.var ("x"), Expr.var ("y")]⟩
      ⟨["x", "y"], [Expr.var ("x"), Expr.var ("y")]⟩
      ["u", "v"] ["x", "y"] ("explode") =
      .error (.valueErr ("Invalid method. Available methods are std and divgrad.")) := by
  rfl

/-- C7 amended: the method check of `fast_laplacian` is the sole
domain-specific raise path of the fast variants — `fast_grad`, `fast_div`
and `fast_advection` are total functions into tensors — and
`fast_laplacian` succeeds exactly when the output is single-column (the
scalar branch ignores `method`) or the method is `std` or `divgrad`. -/
theorem fast_laplacian_method_error_iff (tout tin : LabelTensor)
    (cl dl : List String) (m : String) :
    isOkE (fast_laplacian tout tin cl dl m) = true ↔
      (tout.cols.length = 1 ∨ m = "std" ∨ m = "divgrad") := by
  by_cases h1 : tout.cols.length = 1
  · simp [fast_laplacian, h1, isOkE]
  · by_cases h2 : m = "std"
    · simp [fast_laplacian, h1, h2, isOkE]
    · by_cases h3 : m = "divgrad"
      · simp [fast_laplacian, h1, h2, h3, isOkE]
      · simp [fast_laplacian, h1, h2, h3, isOkE]

/-- C4: constructing the R3 refinement callback with a `residual_loss`
that is an already-instantiated loss (hence the object carrying built-in
reduction behaviour, not a class) fails at construction time, as does a
`residual_loss` that is not a recognized elementwise-loss abstraction;
a recognized loss class is instantiated with no reduction. -/
theorem r3_init_rejects_bad_loss :
    (∀ reducing : Bool,
      R3Refinement_init (.lossInstance reducing) = .error .consistencyErr) ∧
    R3Refinement_init (.lossClass false false) = .error .consistencyErr ∧
    (∀ a b : Bool, (a || b) = true →
      ∃ st : R3State, R3Refinement_init (.lossClass a b) = .ok st ∧
        st.lossFnReducing = false) := by
  refine ⟨fun r => rfl, rfl, fun a b hab => ⟨⟨false⟩, ?_, rfl⟩⟩
  simp [R3Refinement_init, check_consistency_subclass, hab]

/-- C4 witness: a reducing loss instance is rejected, and a recognized
elementwise loss class is accepted with a non-reducing loss function. -/
theorem r3_init_rejects_bad_loss_check :
    (true || false) = true ∧
    ∃ st : R3State, R3Refinement_init (.lossClass true false) = .ok st ∧
      st.lossFnReducing = false :=
  ⟨by decide, r3_init_rejects_bad_loss.2.2 true false (by decide)⟩

/-- Every label list passes its own containment check. -/
theorem all_contains_self (l : List String) :
    (l.all (fun x => l.contains x)) = true :=
  List.all_eq_true.mpr (fun x hx => List.elem_eq_true_of_mem hx)

/-- A failed derivative-label check makes `_check_values` raise the
`RuntimeError` of operator.py:63-64. -/
theorem check_values_dErr (tout tin : LabelTensor) (components d : Arg)
    (h : ¬ (normalizeArg d tin.labels).all
        (fun di => tin.labels.contains di) = true) :
    _check_values (.lt tout) (.lt tin) components d =
      .error (.runtimeErr ("Derivative labels missing from input tensor.")) := by
  simp only [normalizeArg] at h
  simp only [_check_values]
  rw [if_neg h]

/-- A failed component-label check makes `_check_values` raise the
`RuntimeError` of operator.py:67-68. -/
theorem check_values_cErr (tout tin : LabelTensor) (components d : Arg)
    (hd : (normalizeArg d tin.labels).all
        (fun di => tin.labels.contains di) = true)
    (h : ¬ (normalizeArg components tout.labels).all
        (fun c => tout.labels.contains c) = true) :
    _check_values (.lt tout) (.lt tin) components d =
      .error (.runtimeErr ("Component label missing from output tensor.")) := by
  simp only [normalizeArg] at hd h
  simp only [_check_values]
  rw [if_pos hd, if_neg h]

/-- `_check_values` succeeds on labeled tensors with valid nonempty
label-list arguments, passing the lists through unchanged. -/
theorem check_values_ok (tout tin : LabelTensor) (cl dl : List String)
    (hc : cl.all (fun c => tout.labels.contains c) = true)
    (hd : dl.all (fun di => tin.labels.contains di) = true)
    (hcne : cl ≠ []) (hdne : dl ≠ []) :
    _check_values (.lt tout) (.lt tin) (.list cl) (.list dl) =
      .ok (tout, tin, cl, dl) := by
  have hce : cl.isEmpty = false := by
    cases cl with
    | nil => exact absurd rfl hcne
    | cons a t => rfl
  have hde : dl.isEmpty = false := by
    cases dl with
    | nil => exact absurd rfl hdne
    | cons a t => rfl
  have hc2 : ∀ x ∈ cl, tout.labels.contains x = true := fun x hx =>
    List.all_eq_true.mp hc x hx
  have hd2 : ∀ x ∈ dl, tin.labels.contains x = true := fun x hx =>
    List.all_eq_true.mp hd x hx
  simp only [_check_values, Arg.orDefault, Arg.falsy, hce, hde, Arg.toStrList,
    Bool.false_eq_true, if_false, List.all_eq_true, decide_eq_true_eq]
  rw [if_pos hd2, if_pos hc2]

/-- C10: for each checked operator, an empty `components` list or an
empty `d` list is falsy in the Python `or` defaulting of
operator.py:54-56, so each one independently behaves exactly like
omitting that argument — with the other argument held arbitrary — and is
replaced by the full output or input label list; hence an empty request
never yields a zero-column result or a validation error. -/
theorem empty_list_defaults (output_ input_ : PyValue) (vfield : Arg)
    (method : String) (components d : Arg) :
    _check_values output_ input_ (Arg.list []) d =
      _check_values output_ input_ Arg.none d ∧
    _check_values output_ input_ components (Arg.list []) =
      _check_values output_ input_ components Arg.none ∧
    grad output_ input_ (Arg.list []) d =
      grad output_ input_ Arg.none d ∧
    grad output_ input_ components (Arg.list []) =
      grad output_ input_ components Arg.none ∧
    div output_ input_ (Arg.list []) d =
      div output_ input_ Arg.none d ∧
    div output_ input_ components (Arg.list []) =
      div output_ input_ components Arg.none ∧
    laplacian output_ input_ (Arg.list []) d method =
      laplacian output_ input_ Arg.none d method ∧
    laplacian output_ input_ components (Arg.list []) method =
      laplacian output_ input_ components Arg.none method ∧
    advection output_ input_ vfield (Arg.list []) d =
      advection output_ input_ vfield Arg.none d ∧
    advection output_ input_ vfield components (Arg.list []) =
      advection output_ input_ vfield components Arg.none ∧
    (∀ tout tin, output_ = .lt tout → input_ = .lt tin →
      _check_values output_ input_ (Arg.list []) (Arg.list []) =
        .ok (tout, tin, tout.labels, tin.labels)) := by
  cases input_ with
  | notLT =>
    exact ⟨rfl, rfl, rfl, rfl, rfl, rfl, rfl, rfl, rfl, rfl,
      fun t1 t2 h1 h2 => by cases h2⟩
  | lt tin =>
    cases output_ with
    | notLT =>
      exact ⟨rfl, rfl, rfl, rfl, rfl, rfl, rfl, rfl, rfl, rfl,
        fun t1 t2 h1 h2 => by cases h1⟩
    | lt tout =>
      refine ⟨rfl, rfl, rfl, rfl, rfl, rfl, rfl, rfl, rfl, rfl,
        fun t1 t2 h1 h2 => ?_⟩
      cases h1
      cases h2
      simp [_check_values, Arg.orDefault, Arg.falsy, Arg.toStrList,
        all_contains_self]

/-- C10 witness: an empty `components` list with an explicit `d` behaves
like omitting `components`, an explicit `components` with an empty `d`
behaves like omitting `d`, and with both empty the full label lists are
substituted. -/
theorem empty_list_defaults_check :
    grad (.lt ⟨["u"], [Expr.var ("x")]⟩) (.lt ⟨["x"], [Expr.var ("x")]⟩)
        (Arg.list []) (Arg.list ["x"]) =
      grad (.lt ⟨["u"], [Expr.var ("x")]⟩) (.lt ⟨["x"], [Expr.var ("x")]⟩)
        Arg.none (Arg.list ["x"]) ∧
    grad (.lt ⟨["u"], [Expr.var ("x")]⟩) (.lt ⟨["x"], [Expr.var ("x")]⟩)
        (Arg.list ["u"]) (Arg.list []) =
      grad (.lt ⟨["u"], [Expr.var ("x")]⟩) (.lt ⟨["x"], [Expr.var ("x")]⟩)
        (Arg.list ["u"]) Arg.none ∧
    _check_values (.lt ⟨["u"], [Expr.var ("x")]⟩)
        (.lt ⟨["x"], [Expr.var ("x")]⟩) (Arg.list []) (Arg.list []) =
      .ok (⟨["u"], [Expr.var ("x")]⟩, ⟨["x"], [Expr.var ("x")]⟩, ["u"], ["x"]) :=
  ⟨(empty_list_defaults (.lt ⟨["u"], [Expr.var ("x")]⟩)
      (.lt ⟨["x"], [Expr.var ("x")]⟩) Arg.none ("std")
      (Arg.list ["u"]) (Arg.list ["x"])).2.2.1,
   (empty_list_defaults (.lt ⟨["u"], [Expr.var ("x")]⟩)
      (.lt ⟨["x"], [Expr.var ("x")]⟩) Arg.none ("std")
      (Arg.list ["u"]) (Arg.list ["x"])).2.2.2.1,
   (empty_list_defaults (.lt ⟨["u"], [Expr.var ("x")]⟩)
      (.lt ⟨["x"], [Expr.var ("x")]⟩) Arg.none ("std")
      (Arg.list ["u"]) (Arg.list ["x"])).2.2.2.2.2.2.2.2.2.2 _ _ rfl rfl⟩

/-- C8: every checked operator runs `_check_values` before any
differentiation: a non-labeled-tensor output or input yields a
`TypeError`; with labeled tensors, a requested derivative variable absent
from the input labels yields the derivative `RuntimeError`, and (with the
derivative check passing) a requested component absent from the output
labels yields the component `RuntimeError`.  In each case the error is
the operator's whole result, so no output tensor is produced. -/
theorem checked_ops_validate (output_ input_ : PyValue)
    (components d vfield : Arg) (method : String) :
    ((output_ = PyValue.notLT ∨ input_ = PyValue.notLT) →
      isTypeErr (grad output_ input_ components d) = true ∧
      isTypeErr (div output_ input_ components d) = true ∧
      isTypeErr (laplacian output_ input_ components d method) = true ∧
      isTypeErr (advection output_ input_ vfield components d) = true) ∧
    (∀ tout tin : LabelTensor, output_ = .lt tout → input_ = .lt tin →
      ((¬ (normalizeArg d tin.labels).all
          (fun di => tin.labels.contains di) = true) →
        isRuntimeErr (grad output_ input_ components d) = true ∧
        isRuntimeErr (div output_ input_ components d) = true ∧
        isRuntimeErr (laplacian output_ input_ components d method) = true ∧
        isRuntimeErr (advection output_ input_ vfield components d) = true) ∧
      ((normalizeArg d tin.labels).all
          (fun di => tin.labels.contains di) = true →
       (¬ (normalizeArg components tout.labels).all
          (fun c => tout.labels.contains c) = true) →
        isRuntimeErr (grad output_ input_ components d) = true ∧
        isRuntimeErr (div output_ input_ components d) = true ∧
        isRuntimeErr (laplacian output_ input_ components d method) = true ∧
        isRuntimeErr (advection output_ input_ vfield components d) = true)) := by
  constructor
  · intro hbad
    cases input_ with
    | notLT => exact ⟨rfl, rfl, rfl, rfl⟩
    | lt tin =>
      cases output_ with
      | notLT => exact ⟨rfl, rfl, rfl, rfl⟩
      | lt tout =>
        rcases hbad with h | h
        · cases h
        · cases h
  · intro tout tin h1 h2
    cases h1
    cases h2
    constructor
    · intro hderr
      have hch := check_values_dErr tout tin components d hderr
      refine ⟨?_, ?_, ?_, ?_⟩
      · simp [grad, hch, isRuntimeErr, Bind.bind, Except.bind]
      · simp [div, hch, isRuntimeErr, Bind.bind, Except.bind]
      · simp [laplacian, hch, isRuntimeErr, Bind.bind, Except.bind]
      · simp [advection, hch, isRuntimeErr, Bind.bind, Except.bind]
    · intro hdok hcerr
      have hch := check_values_cErr tout tin components d hdok hcerr
      refine ⟨?_, ?_, ?_, ?_⟩
      · simp [grad, hch, isRuntimeErr, Bind.bind, Except.bind]
      · simp [div, hch, isRuntimeErr, Bind.bind, Except.bind]
      · simp [laplacian, hch, isRuntimeErr, Bind.bind, Except.bind]
      · simp [advection, hch, isRuntimeErr, Bind.bind, Except.bind]

/-- C8 witness: a non-tensor output is a `TypeError` for `grad`, and a
missing derivative label is a `RuntimeError` for `div`. -/
theorem checked_ops_validate_check :
    isTypeErr (grad PyValue.notLT PyValue.notLT Arg.none Arg.none) = true ∧
    isRuntimeErr (div (.lt ⟨["u"], [Expr.var ("x")]⟩)
      (.lt ⟨["x"], [Expr.var ("x")]⟩) Arg.none (Arg.list ["z"])) = true :=
  ⟨((checked_ops_validate PyValue.notLT PyValue.notLT Arg.none Arg.none
      Arg.none ("std")).1 (Or.inl rfl)).1,
   (((checked_ops_validate (.lt ⟨["u"], [Expr.var ("x")]⟩)
      (.lt ⟨["x"], [Expr.var ("x")]⟩) Arg.none (Arg.list ["z"]) Arg.none
      ("std")).2 _ _ rfl rfl).1 (by decide)).2.1⟩

/-- C9: with labeled tensors and valid nonempty label lists, the checked
`div` raises its `ValueError` exactly when `len(components) != len(d)`
(operator.py:378-381), and the checked `advection` raises its
`RuntimeError` exactly when `len(velocity_field) != len(d)`
(operator.py:466-469); when the lengths match both proceed to a
successful result. -/
theorem div_advection_length_mismatch (tout tin : LabelTensor)
    (cl dl vf : List String)
    (hc : cl.all (fun c => tout.labels.contains c) = true)
    (hd : dl.all (fun di => tin.labels.contains di) = true)
    (hv : vf.all (fun vi => tout.labels.contains vi) = true)
    (hcne : cl ≠ []) (hdne : dl ≠ []) :
    (cl.length ≠ dl.length →
      div (.lt tout) (.lt tin) (Arg.list cl) (Arg.list dl) =
        .error (.valueErr
          ("Divergence requires components and d to be of the same length."))) ∧
    (cl.length = dl.length →
      isOkE (div (.lt tout) (.lt tin) (Arg.list cl) (Arg.list dl)) = true) ∧
    (vf.length ≠ dl.length →
      advection (.lt tout) (.lt tin) (Arg.list vf) (Arg.list cl) (Arg.list dl) =
        .error (.runtimeErr
          ("Velocity dimensionality does not match input dimensionality."))) ∧
    (vf.length = dl.length →
      isOkE (advection (.lt tout) (.lt tin) (Arg.list vf) (Arg.list cl)
        (Arg.list dl)) = true) := by
  have hok := check_values_ok tout tin cl dl hc hd hcne hdne
  have hv2 : ∀ x ∈ vf, x ∈ tout.labels := fun x hx =>
    List.mem_of_elem_eq_true (List.all_eq_true.mp hv x hx)
  refine ⟨fun hne => ?_, fun heq => ?_, fun hne => ?_, fun heq => ?_⟩
  · simp [div, hok, Bind.bind, Except.bind, hne]
  · simp [div, hok, Bind.bind, Except.bind, heq, isOkE, Pure.pure, Except.pure]
  · have hvneg : ¬ ∃ x ∈ vf, x ∉ tout.labels := by
      push_neg
      exact hv2
    simp [advection, hok, Bind.bind, Except.bind, hvneg, hne, isOkE,
      Pure.pure, Except.pure]
  · have hvneg : ¬ ∃ x ∈ vf, x ∉ tout.labels := by
      push_neg
      exact hv2
    simp [advection, hok, Bind.bind, Except.bind, hvneg, heq, isOkE,
      Pure.pure, Except.pure]

/-- C9 witness: a two-component one-direction `div` call raises the
length-mismatch error, while a one-velocity one-direction `advection`
call proceeds. -/
theorem div_advection_length_mismatch_check :
    div (.lt ⟨["u", "v"], [Expr.var ("x"), Expr.var ("x")]⟩)
        (.lt ⟨["x"], [Expr.var ("x")]⟩) (Arg.list ["u", "v"]) (Arg.list ["x"]) =
      .error (.valueErr
        ("Divergence requires components and d to be of the same length.")) ∧
    isOkE (advection (.lt ⟨["u", "v"], [Expr.var ("x"), Expr.var ("x")]⟩)
        (.lt ⟨["x"], [Expr.var ("x")]⟩) (Arg.list ["u"]) (Arg.list ["u", "v"])
        (Arg.list ["x"])) = true :=
  ⟨(div_advection_length_mismatch
      ⟨["u", "v"], [Expr.var ("x"), Expr.var ("x")]⟩ ⟨["x"], [Expr.var ("x")]⟩
      ["u", "v"] ["x"] ["u"] (by decide) (by decide) (by decide) (by decide)
      (by decide)).1 (by decide),
   (div_advection_length_mismatch
      ⟨["u", "v"], [Expr.var ("x"), Expr.var ("x")]⟩ ⟨["x"], [Expr.var ("x")]⟩
      ["u", "v"] ["x"] ["u"] (by decide) (by decide) (by decide) (by decide)
      (by decide)).2.2.2 (by decide)⟩

/-- C5: a valid checked `grad` call on a vector output with `k` requested
components and `m` requested derivative variables succeeds and returns a
tensor with exactly `k*m` columns, labeled `d<comp>d<var>` with the outer
loop over components and the inner loop over derivative variables
(operator.py:163-165). -/
theorem grad_vector_labels (tout tin : LabelTensor) (cl dl : List String)
    (h1 : tout.cols.length ≠ 1)
    (hc : cl.all (fun c => tout.labels.contains c) = true)
    (hd : dl.all (fun di => tin.labels.contains di) = true)
    (hcne : cl ≠ []) (hdne : dl ≠ []) :
    ∃ t : LabelTensor,
      grad (.lt tout) (.lt tin) (Arg.list cl) (Arg.list dl) = .ok t ∧
      t.labels = cl.flatMap (fun c => dl.map (fun i => dLab c i)) ∧
      t.labels.length = cl.length * dl.length ∧
      t.cols.length = cl.length * dl.length := by
  have hok := check_values_ok tout tin cl dl hc hd hcne hdne
  have hdm : ∀ i ∈ dl, i ∈ tin.labels := fun i hi =>
    List.mem_of_elem_eq_true (List.all_eq_true.mp hd i hi)
  have hfg := fast_grad_vector tout tin cl dl h1 hdm
  refine ⟨fast_grad tout tin cl dl, ?_, ?_, ?_, ?_⟩
  · simp [grad, hok, Bind.bind, Except.bind, Pure.pure, Except.pure]
  · rw [hfg]
  · rw [hfg]
    exact length_flatMap_const _ _ _ (fun c hc2 => by simp)
  · rw [hfg]
    exact length_flatMap_const _ _ _ (fun c hc2 => by simp)

/-- C5 witness: two components and two directions yield the four columns
`dudx, dudy, dvdx, dvdy` in component-major order. -/
theorem grad_vector_labels_check :
    ∃ t : LabelTensor,
      grad (.lt ⟨["u", "v"], [Expr.var ("x"), Expr.var ("y")]⟩)
        (.lt ⟨["x", "y"], [Expr.var ("x"), Expr.var ("y")]⟩)
        (Arg.list ["u", "v"]) (Arg.list ["x", "y"]) = .ok t ∧
      t.labels = ["u", "v"].flatMap (fun c => ["x", "y"].map (fun i => dLab c i)) ∧
      t.labels.length = 2 * 2 ∧
      t.cols.length = 2 * 2 :=
  grad_vector_labels ⟨["u", "v"], [Expr.var ("x"), Expr.var ("y")]⟩
    ⟨["x", "y"], [Expr.var ("x"), Expr.var ("y")]⟩ ["u", "v"] ["x", "y"]
    (by decide) (by decide) (by decide) (by decide) (by decide)

/-- Boolean row selection never yields more rows than the input. -/
theorem maskKeep_length_le (pts : List Point) (mask : List Bool) :
    (maskKeep pts mask).length ≤ pts.length := by
  simp only [maskKeep, List.length_map]
  exact le_trans (List.length_filter_le _ _)
    (by rw [List.length_zip]; exact Nat.min_le_left _ _)

/-- Row selection by a pointwise-predicate mask is filtering the rows
paired with their scores. -/
theorem maskKeep_map_pred {p : ℚ → Bool} (pts : List Point) (rs : List ℚ) :
    maskKeep pts (rs.map p) =
      ((pts.zip rs).filter (fun pr => p pr.snd)).map Prod.fst := by
  induction pts generalizing rs with
  | nil => simp [maskKeep]
  | cons a t ih =>
    cases rs with
    | nil => simp [maskKeep]
    | cons r rs2 =>
      simp only [List.map_cons, maskKeep, List.zip_cons_cons, List.filter_cons]
      cases hp : p r
      · simpa [maskKeep] using ih rs2
      · simpa [maskKeep] using ih rs2

/-- A mask as long as the row list selects a row somewhere exactly when
the mask holds a `true`. -/
theorem maskKeep_ne_nil_iff (pts : List Point) (mask : List Bool)
    (h : mask.length = pts.length) :
    (mask.any id = true) ↔ maskKeep pts mask ≠ [] := by
  induction pts generalizing mask with
  | nil =>
    cases mask with
    | nil => simp [maskKeep]
    | cons b m => cases h
  | cons a t ih =>
    cases mask with
    | nil => cases h
    | cons b m =>
      have hlen : m.length = t.length := by simpa using h
      cases b
      · simpa [maskKeep, List.filter_cons] using ih m hlen
      · simp [maskKeep, List.filter_cons]

/-- C2: one R3 refinement pass writes back a population of exactly the
recorded initial size: with `k` retained rows it keeps them and appends
`size - k` fresh domain samples, and with zero retained rows it replaces
the population by `size` fresh domain samples
(r3_refinement.py:79-88). -/
theorem r3_population_size_invariant (current : PointPop)
    (target : List (List ℚ)) (lossElem : ℚ → ℚ) (size : ℕ)
    (domainSample : ℕ → PointPop)
    (hlen : current.points.length = size)
    (hres : target.length = current.points.length)
    (hdom : ∀ n, (domainSample n).points.length = n) :
    (R3sample current target lossElem size domainSample).points.length = size ∧
    (maskKeep current.points ((pointResiduals target lossElem).map
        (fun r => decide (meanQ (pointResiduals target lossElem) < r))) ≠ [] →
      (R3sample current target lossElem size domainSample).points =
        maskKeep current.points ((pointResiduals target lossElem).map
          (fun r => decide (meanQ (pointResiduals target lossElem) < r))) ++
        (domainSample (size - (maskKeep current.points
          ((pointResiduals target lossElem).map
            (fun r => decide (meanQ (pointResiduals target lossElem) < r)))).length)).points) ∧
    (maskKeep current.points ((pointResiduals target lossElem).map
        (fun r => decide (meanQ (pointResiduals target lossElem) < r))) = [] →
      (R3sample current target lossElem size domainSample).points =
        (domainSample size).points) := by
  have hmlen : ((pointResiduals target lossElem).map
      (fun r => decide (meanQ (pointResiduals target lossElem) < r))).length =
      current.points.length := by
    simp [pointResiduals, hres]
  by_cases hany : ((pointResiduals target lossElem).map
      (fun r => decide (meanQ (pointResiduals target lossElem) < r))).any id = true
  · have hne := (maskKeep_ne_nil_iff current.points _ hmlen).mp hany
    have hk : (maskKeep current.points ((pointResiduals target lossElem).map
        (fun r => decide (meanQ (pointResiduals target lossElem) < r)))).length ≤
        size := hlen ▸ maskKeep_length_le _ _
    refine ⟨?_, fun _ => ?_, fun hnil => absurd hnil hne⟩
    · simp only [R3sample, if_pos hany, List.length_append, hdom]
      exact Nat.add_sub_cancel' hk
    · simp only [R3sample, if_pos hany]
  · have hnil : maskKeep current.points ((pointResiduals target lossElem).map
        (fun r => decide (meanQ (pointResiduals target lossElem) < r))) = [] := by
      by_contra hne
      exact hany ((maskKeep_ne_nil_iff current.points _ hmlen).mpr hne)
    refine ⟨?_, fun hne => absurd hnil hne, fun _ => ?_⟩
    · simp only [R3sample, if_neg hany, hdom]
    · simp only [R3sample, if_neg hany]

/-- C2 witness: a two-point population with recorded size two keeps its
size after a pass retaining one point. -/
theorem r3_population_size_invariant_check :
    (R3sample ⟨["x"], [[1], [2]]⟩ [[0], [4]] (fun q => q) 2
      (fun n => ⟨["x"], List.replicate n [0]⟩)).points.length = 2 :=
  (r3_population_size_invariant ⟨["x"], [[1], [2]]⟩ [[0], [4]] (fun q => q) 2
    (fun n => ⟨["x"], List.replicate n [0]⟩) rfl rfl (fun n => by simp)).1

/-- C3: when at least one residual strictly exceeds the population mean,
the pass retains exactly the rows whose residual is strictly greater than
the mean, in their original order, keeps the input population's labels on
the written-back tensor, and appends the freshly sampled rows after the
retained ones (r3_refinement.py:80-87). -/
theorem r3_retained_points (current : PointPop) (target : List (List ℚ))
    (lossElem : ℚ → ℚ) (size : ℕ) (domainSample : ℕ → PointPop)
    (hany : ∃ r ∈ pointResiduals target lossElem,
        meanQ (pointResiduals target lossElem) < r) :
    (R3sample current target lossElem size domainSample).labels =
      current.labels ∧
    (R3sample current target lossElem size domainSample).points =
      ((current.points.zip (pointResiduals target lossElem)).filter
        (fun pr => decide (meanQ (pointResiduals target lossElem) < pr.snd))).map
        Prod.fst ++
      (domainSample (size -
        (((current.points.zip (pointResiduals target lossElem)).filter
          (fun pr => decide (meanQ (pointResiduals target lossElem) < pr.snd))).map
          Prod.fst).length)).points := by
  have hmaskany : ((pointResiduals target lossElem).map
      (fun r => decide (meanQ (pointResiduals target lossElem) < r))).any id = true := by
    rw [List.any_eq_true]
    obtain ⟨r, hr, hlt⟩ := hany
    exact ⟨_, List.mem_map_of_mem _ hr, by simpa using hlt⟩
  constructor
  · simp only [R3sample, if_pos hmaskany]
  · simp only [R3sample, if_pos hmaskany]
    rw [maskKeep_map_pred]

/-- C3 witness: of three points with residuals 0, 0, 6 and mean 2, only
the third is retained, in place, followed by two fresh samples. -/
theorem r3_retained_points_check :
    (R3sample ⟨["x"], [[1], [2], [3]]⟩ [[0], [0], [6]] (fun q => q) 3
      (fun n => ⟨["x"], List.replicate n [5]⟩)).labels = ["x"] ∧
    (R3sample ⟨["x"], [[1], [2], [3]]⟩ [[0], [0], [6]] (fun q => q) 3
      (fun n => ⟨["x"], List.replicate n [5]⟩)).points = [[3], [5], [5]] := by
  have hresc : pointResiduals [[0], [0], [6]] (fun q => q) = [0, 0, 6] := by
    norm_num [pointResiduals, meanQ]
  have hmean : meanQ [(0 : ℚ), 0, 6] = 2 := by
    norm_num [meanQ]
  have h := r3_retained_points ⟨["x"], [[1], [2], [3]]⟩ [[0], [0], [6]]
    (fun q => q) 3 (fun n => ⟨["x"], List.replicate n [5]⟩)
    ⟨6, by rw [hresc]; norm_num, by rw [hresc, hmean]; norm_num⟩
  refine ⟨h.1, ?_⟩
  rw [h.2, hresc, hmean]
  norm_num [List.zip, List.zipWith, List.filter, List.replicate]

/-- A flat concatenation over a mapped list composes the functions. -/
theorem flatMap_map_comp {α β γ : Type} (l : List α) (g : α → β)
    (h : β → List γ) : (l.map g).flatMap h = l.flatMap (fun a => h (g a)) := by
  induction l with
  | nil => rfl
  | cons a t ih => simp only [List.map_cons, List.flatMap_cons, ih]

/-- Congruence for flat concatenation over a list. -/
theorem flatMap_congr_left {α β : Type} (l : List α) (f g : α → List β)
    (h : ∀ a ∈ l, f a = g a) : l.flatMap f = l.flatMap g := by
  rw [List.flatMap_def, List.flatMap_def, List.map_congr_left h]

/-- Mapping a two-argument function over the pair list is the
component-major double loop. -/
theorem flatMap_pair_map {α β γ : Type} (l1 : List α) (l2 : List β)
    (g : α → β → γ) :
    (pairsL l1 l2).map (fun p => g p.1 p.2) =
      l1.flatMap (fun a => l2.map (fun b => g a b)) := by
  induction l1 with
  | nil => rfl
  | cons a t ih =>
    simp only [pairsL, List.flatMap_cons, List.map_append, List.map_map] at *
    rw [ih]
    rfl

/-- Membership in the pair list. -/
theorem mem_pairsL {α β : Type} {a : α} {b : β} {l1 : List α} {l2 : List β}
    (ha : a ∈ l1) (hb : b ∈ l2) : (a, b) ∈ pairsL l1 l2 := by
  simp only [pairsL, List.mem_flatMap]
  exact ⟨a, ha, List.mem_map_of_mem _ hb⟩

/-- A list of ones sums to the length of the list. -/
theorem sum_map_one {α : Type} (l : List α) :
    (l.map (fun _ => (1 : ℕ))).sum = l.length := by
  induction l with
  | nil => rfl
  | cons a t ih => simp [ih, Nat.add_comm]

set_option maxHeartbeats 1000000 in
/-- Closed form of `_scalar_laplacian` on one extracted component: it is
the fold of the diagonal second-derivative columns over the requested
directions, provided the second-level derivative labels are collision
free. -/
theorem scalar_lap_closed (tout tin : LabelTensor) (c : String)
    (dd : List String) (hd : ∀ i ∈ dd, i ∈ tin.labels)
    (hinj2 : ((dd.map (fun i => dLab c i)).flatMap
        (fun c2 => dd.map (fun j => dLab c2 j))).Nodup) :
    _scalar_laplacian (tout.extract [c]) tin dd =
      (dd.map (fun i => lapT (tout.colOf c) i)).foldr Expr.add (Expr.const 0) := by
  have hfirst : fast_grad (tout.extract [c]) tin (tout.extract [c]).labels dd =
      ⟨dd.map (fun i => dLab c i), dd.map (fun i => gradT (tout.colOf c) i)⟩ := by
    rw [fast_grad_scalar (tout.extract [c]) tin (tout.extract [c]).labels dd rfl hd]
    rfl
  have hform : _scalar_laplacian (tout.extract [c]) tin dd =
      ((fast_grad (fast_grad (tout.extract [c]) tin (tout.extract [c]).labels dd)
        tin (fast_grad (tout.extract [c]) tin (tout.extract [c]).labels dd).labels
        dd).extract
        (List.zipWith (fun a b => dLab a b)
          (fast_grad (tout.extract [c]) tin
            (tout.extract [c]).labels dd).labels dd)).cols.foldr
        Expr.add (Expr.const 0) := rfl
  rw [hform, hfirst]
  by_cases hl1 : dd.length = 1
  · obtain ⟨x, rfl⟩ := List.length_eq_one.mp hl1
    simp only [List.map_cons, List.map_nil]
    rw [fast_grad_scalar ⟨[dLab c x], [gradT (tout.colOf c) x]⟩ tin
      [dLab c x] [x] rfl hd]
    show ((LabelTensor.mk [dLab (dLab c x) x] [lapT (tout.colOf c) x]).extract
      [dLab (dLab c x) x]).cols.foldr Expr.add (Expr.const 0) = _
    simp only [LabelTensor.extract, List.map_cons, List.map_nil, colOf_single,
      List.foldr_cons, List.foldr_nil]
  · have h2 : (LabelTensor.mk (dd.map (fun i => dLab c i))
        (dd.map (fun i => gradT (tout.colOf c) i))).cols.length ≠ 1 := by
      simpa using hl1
    rw [fast_grad_vector _ tin _ dd h2 hd]
    have hcolfirst : ∀ i ∈ dd,
        (LabelTensor.mk (dd.map (fun i2 => dLab c i2))
          (dd.map (fun i2 => gradT (tout.colOf c) i2))).colOf (dLab c i) =
        gradT (tout.colOf c) i := fun i hi =>
      colOf_map_build dd (fun i2 => dLab c i2)
        (fun i2 => gradT (tout.colOf c) i2) hi
        (fun b hb hgb => by rw [dLab_inj_right c hgb])
    have hcols2 : (dd.map (fun i => dLab c i)).flatMap
        (fun c2 => dd.map (fun j => gradT
          ((LabelTensor.mk (dd.map (fun i => dLab c i))
            (dd.map (fun i => gradT (tout.colOf c) i))).colOf c2) j)) =
        dd.flatMap (fun i => dd.map
          (fun j => gradT (gradT (tout.colOf c) i) j)) := by
      rw [flatMap_map_comp]
      exact flatMap_congr_left _ _ _ (fun i hi =>
        List.map_congr_left (fun j _ => by rw [hcolfirst i hi]))
    have hlab2 : (dd.map (fun i => dLab c i)).flatMap
        (fun c2 => dd.map (fun j => dLab c2 j)) =
        dd.flatMap (fun i => dd.map (fun j => dLab (dLab c i) j)) :=
      flatMap_map_comp dd _ _
    have hlte : List.zipWith (fun a b => dLab a b)
        (dd.map (fun i => dLab c i)) dd =
        dd.map (fun i => dLab (dLab c i) i) := by
      rw [List.zipWith_map_left]
      exact List.zipWith_same _ _
    show ((LabelTensor.mk ((dd.map (fun i => dLab c i)).flatMap
        (fun c2 => dd.map (fun j => dLab c2 j)))
        ((dd.map (fun i => dLab c i)).flatMap
          (fun c2 => dd.map (fun j => gradT
            ((LabelTensor.mk (dd.map (fun i => dLab c i))
              (dd.map (fun i => gradT (tout.colOf c) i))).colOf c2) j)))).extract
      (List.zipWith (fun a b => dLab a b) (dd.map (fun i => dLab c i)) dd)).cols.foldr
      Expr.add (Expr.const 0) = _
    rw [hcols2, hlab2, hlte]
    have hpl : (pairsL dd dd).map (fun p => dLab (dLab c p.1) p.2) =
        dd.flatMap (fun i => dd.map (fun j => dLab (dLab c i) j)) :=
      flatMap_pair_map dd dd (fun a b => dLab (dLab c a) b)
    have hpc : (pairsL dd dd).map
        (fun p => gradT (gradT (tout.colOf c) p.1) p.2) =
        dd.flatMap (fun i => dd.map
          (fun j => gradT (gradT (tout.colOf c) i) j)) :=
      flatMap_pair_map dd dd (fun a b => gradT (gradT (tout.colOf c) a) b)
    have hinj2p : ((pairsL dd dd).map
        (fun p => dLab (dLab c p.1) p.2)).Nodup := by
      rw [hpl]
      have h3 := hinj2
      rw [flatMap_map_comp] at h3
      exact h3
    have hdiag : ∀ i ∈ dd,
        (LabelTensor.mk
          (dd.flatMap (fun i2 => dd.map (fun j => dLab (dLab c i2) j)))
          (dd.flatMap (fun i2 => dd.map
            (fun j => gradT (gradT (tout.colOf c) i2) j)))).colOf
          (dLab (dLab c i) i) = lapT (tout.colOf c) i := by
      intro i hi
      rw [← hpl, ← hpc]
      exact colOf_map_build (pairsL dd dd) (fun p => dLab (dLab c p.1) p.2)
        (fun p => gradT (gradT (tout.colOf c) p.1) p.2) (mem_pairsL hi hi)
        (fun b hb hgb => by
          have hb2 := List.inj_on_of_nodup_map hinj2p hb (mem_pairsL hi hi) hgb
          rw [hb2])
    simp only [LabelTensor.extract, List.map_map]
    refine congrArg (fun l => List.foldr Expr.add (Expr.const 0) l) ?_
    exact List.map_congr_left (fun i hi => hdiag i hi)

set_option maxHeartbeats 1000000 in
/-- Closed form of one component of the `divgrad` Laplacian: applying
`fast_div` to that component's block of the full gradient yields a single
column whose value is the sum of the same diagonal second-derivative
columns, provided the derivative labels are collision free. -/
theorem divgrad_col_closed (tout tin : LabelTensor) (c : String)
    (hc : c ∈ tout.labels)
    (h1 : tout.cols.length ≠ 1)
    (hprod : tout.labels.length * tin.labels.length ≠ 1)
    (hd0 : tin.labels ≠ [])
    (hinj1 : (tout.labels.flatMap
        (fun c2 => tin.labels.map (fun i => dLab c2 i))).Nodup)
    (hinj2 : ((tin.labels.map (fun i => dLab c i)).flatMap
        (fun c2 => tin.labels.map (fun j => dLab c2 j))).Nodup) :
    ∃ e : Expr,
      (fast_div (fast_grad tout tin tout.labels tin.labels) tin
        (tin.labels.map (fun i => dLab c i)) tin.labels).cols = [e] ∧
      ∀ rho, e.evalQ rho =
        (tin.labels.map (fun i => (lapT (tout.colOf c) i).evalQ rho)).sum := by
  have hdm : ∀ i ∈ tin.labels, i ∈ tin.labels := fun _ h => h
  have hgr := fast_grad_vector tout tin tout.labels tin.labels h1 hdm
  have hform : fast_div (fast_grad tout tin tout.labels tin.labels) tin
      (tin.labels.map (fun i => dLab c i)) tin.labels =
      LabelTensor.summation (List.zipWith
        (fun c2 d2 => (fast_grad (fast_grad tout tin tout.labels tin.labels) tin
          (tin.labels.map (fun i => dLab c i)) tin.labels).extract [dLab c2 d2])
        (tin.labels.map (fun i => dLab c i)) tin.labels) := rfl
  rw [hform, hgr]
  have hglen : (tout.labels.flatMap (fun c2 => tin.labels.map
      (fun i => gradT (tout.colOf c2) i))).length =
      tout.labels.length * tin.labels.length :=
    length_flatMap_const _ _ _ (fun a ha => by simp)
  have h1g : (LabelTensor.mk
      (tout.labels.flatMap (fun c2 => tin.labels.map (fun i => dLab c2 i)))
      (tout.labels.flatMap (fun c2 => tin.labels.map
        (fun i => gradT (tout.colOf c2) i)))).cols.length ≠ 1 := by
    simpa [hglen] using hprod
  rw [fast_grad_vector (LabelTensor.mk
      (tout.labels.flatMap (fun c2 => tin.labels.map (fun i => dLab c2 i)))
      (tout.labels.flatMap (fun c2 => tin.labels.map
        (fun i => gradT (tout.colOf c2) i)))) tin
    (tin.labels.map (fun i => dLab c i)) tin.labels h1g hdm]
  have hoPL : (pairsL tout.labels tin.labels).map (fun p => dLab p.1 p.2) =
      tout.labels.flatMap (fun c2 => tin.labels.map (fun i => dLab c2 i)) :=
    flatMap_pair_map tout.labels tin.labels (fun a b => dLab a b)
  have hoPC : (pairsL tout.labels tin.labels).map
      (fun p => gradT (tout.colOf p.1) p.2) =
      tout.labels.flatMap (fun c2 => tin.labels.map
        (fun i => gradT (tout.colOf c2) i)) :=
    flatMap_pair_map tout.labels tin.labels (fun a b => gradT (tout.colOf a) b)
  have hinj1p : ((pairsL tout.labels tin.labels).map
      (fun p => dLab p.1 p.2)).Nodup := by
    rw [hoPL]
    exact hinj1
  have hcolg : ∀ i ∈ tin.labels,
      (LabelTensor.mk
        (tout.labels.flatMap (fun c2 => tin.labels.map (fun i2 => dLab c2 i2)))
        (tout.labels.flatMap (fun c2 => tin.labels.map
          (fun i2 => gradT (tout.colOf c2) i2)))).colOf (dLab c i) =
      gradT (tout.colOf c) i := by
    intro i hi
    rw [← hoPL, ← hoPC]
    exact colOf_map_build (pairsL tout.labels tin.labels)
      (fun p => dLab p.1 p.2) (fun p => gradT (tout.colOf p.1) p.2)
      (mem_pairsL hc hi)
      (fun b hb hgb => by
        have hb2 := List.inj_on_of_nodup_map hinj1p hb (mem_pairsL hc hi) hgb
        rw [hb2])
  have hcols2 : (tin.labels.map (fun i => dLab c i)).flatMap
      (fun c2 => tin.labels.map (fun j => gradT ((LabelTensor.mk
        (tout.labels.flatMap (fun c3 => tin.labels.map (fun i2 => dLab c3 i2)))
        (tout.labels.flatMap (fun c3 => tin.labels.map
          (fun i2 => gradT (tout.colOf c3) i2)))).colOf c2) j)) =
      tin.labels.flatMap (fun i => tin.labels.map
        (fun j => gradT (gradT (tout.colOf c) i) j)) := by
    rw [flatMap_map_comp]
    exact flatMap_congr_left _ _ _ (fun i hi =>
      List.map_congr_left (fun j _ => by rw [hcolg i hi]))
  have hlab2 : (tin.labels.map (fun i => dLab c i)).flatMap
      (fun c2 => tin.labels.map (fun j => dLab c2 j)) =
      tin.labels.flatMap (fun i => tin.labels.map
        (fun j => dLab (dLab c i) j)) :=
    flatMap_map_comp _ _ _
  rw [hcols2, hlab2]
  have hz : List.zipWith (fun c2 d2 => (LabelTensor.mk
      (tin.labels.flatMap (fun i => tin.labels.map
        (fun j => dLab (dLab c i) j)))
      (tin.labels.flatMap (fun i => tin.labels.map
        (fun j => gradT (gradT (tout.colOf c) i) j)))).extract [dLab c2 d2])
      (tin.labels.map (fun i => dLab c i)) tin.labels =
      tin.labels.map (fun i => (LabelTensor.mk
      (tin.labels.flatMap (fun i2 => tin.labels.map
        (fun j => dLab (dLab c i2) j)))
      (tin.labels.flatMap (fun i2 => tin.labels.map
        (fun j => gradT (gradT (tout.colOf c) i2) j)))).extract
        [dLab (dLab c i) i]) := by
    rw [List.zipWith_map_left]
    exact List.zipWith_same _ _
  rw [hz]
  have hpl : (pairsL tin.labels tin.labels).map
      (fun p => dLab (dLab c p.1) p.2) =
      tin.labels.flatMap (fun i => tin.labels.map
        (fun j => dLab (dLab c i) j)) :=
    flatMap_pair_map tin.labels tin.labels (fun a b => dLab (dLab c a) b)
  have hpc : (pairsL tin.labels tin.labels).map
      (fun p => gradT (gradT (tout.colOf c) p.1) p.2) =
      tin.labels.flatMap (fun i => tin.labels.map
        (fun j => gradT (gradT (tout.colOf c) i) j)) :=
    flatMap_pair_map tin.labels tin.labels
      (fun a b => gradT (gradT (tout.colOf c) a) b)
  have hinj2p : ((pairsL tin.labels tin.labels).map
      (fun p => dLab (dLab c p.1) p.2)).Nodup := by
    rw [hpl]
    have h3 := hinj2
    rw [flatMap_map_comp] at h3
    exact h3
  have hdiag : ∀ i ∈ tin.labels,
      (LabelTensor.mk
        (tin.labels.flatMap (fun i2 => tin.labels.map
          (fun j => dLab (dLab c i2) j)))
        (tin.labels.flatMap (fun i2 => tin.labels.map
          (fun j => gradT (gradT (tout.colOf c) i2) j)))).colOf
        (dLab (dLab c i) i) = lapT (tout.colOf c) i := by
    intro i hi
    rw [← hpl, ← hpc]
    exact colOf_map_build (pairsL tin.labels tin.labels)
      (fun p => dLab (dLab c p.1) p.2)
      (fun p => gradT (gradT (tout.colOf c) p.1) p.2) (mem_pairsL hi hi)
      (fun b hb hgb => by
        have hb2 := List.inj_on_of_nodup_map hinj2p hb (mem_pairsL hi hi) hgb
        rw [hb2])
  have hts : ∀ t ∈ tin.labels.map (fun i => (LabelTensor.mk
      (tin.labels.flatMap (fun i2 => tin.labels.map
        (fun j => dLab (dLab c i2) j)))
      (tin.labels.flatMap (fun i2 => tin.labels.map
        (fun j => gradT (gradT (tout.colOf c) i2) j)))).extract
      [dLab (dLab c i) i]), ∃ e2, t.cols = [e2] := by
    intro t ht
    obtain ⟨i, hi, rfl⟩ := List.mem_map.mp ht
    exact ⟨_, rfl⟩
  have hne : tin.labels.map (fun i => (LabelTensor.mk
      (tin.labels.flatMap (fun i2 => tin.labels.map
        (fun j => dLab (dLab c i2) j)))
      (tin.labels.flatMap (fun i2 => tin.labels.map
        (fun j => gradT (gradT (tout.colOf c) i2) j)))).extract
      [dLab (dLab c i) i]) ≠ [] := by
    intro hcontra
    exact hd0 (List.map_eq_nil_iff.mp hcontra)
  obtain ⟨e, he, hev⟩ := summation_single_cols _ hts hne
  refine ⟨e, he, fun rho => ?_⟩
  rw [hev rho, List.map_map]
  refine congrArg List.sum (List.map_congr_left (fun i hi => ?_))
  show ((LabelTensor.mk
      (tin.labels.flatMap (fun i2 => tin.labels.map
        (fun j => dLab (dLab c i2) j)))
      (tin.labels.flatMap (fun i2 => tin.labels.map
        (fun j => gradT (gradT (tout.colOf c) i2) j)))).colOf
      (dLab (dLab c i) i)).evalQ rho = _
  rw [hdiag i hi]

set_option maxHeartbeats 1000000 in
/-- C6: over the exact-arithmetic embedding, when `d` spans all input
labels (and the generated derivative labels are collision free, as for
ordinary variable names), `fast_laplacian` with method `std` and with
method `divgrad` both succeed, produce the same labels `dd<comp>`, and
produce columns with identical values at every point: both reduce to the
sum of the diagonal second derivatives over the input variables. -/
theorem laplacian_std_divgrad_equiv (tout tin : LabelTensor)
    (hw : tout.cols.length = tout.labels.length)
    (hd0 : tin.labels ≠ [])
    (hinj1 : (tout.labels.flatMap
        (fun c2 => tin.labels.map (fun i => dLab c2 i))).Nodup)
    (hinj2 : ∀ c ∈ tout.labels, ((tin.labels.map (fun i => dLab c i)).flatMap
        (fun c2 => tin.labels.map (fun j => dLab c2 j))).Nodup) :
    ∃ ts td : LabelTensor,
      fast_laplacian tout tin tout.labels tin.labels ("std") = .ok ts ∧
      fast_laplacian tout tin tout.labels tin.labels ("divgrad") = .ok td ∧
      ts.labels = td.labels ∧
      ts.cols.length = td.cols.length ∧
      ∀ rho : String → ℚ, ts.cols.map (fun e => e.evalQ rho) =
        td.cols.map (fun e => e.evalQ rho) := by
  by_cases h1 : tout.cols.length = 1
  · refine ⟨⟨tout.labels.map (fun c => ddLab c),
        [_scalar_laplacian tout tin tin.labels]⟩,
      ⟨tout.labels.map (fun c => ddLab c),
        [_scalar_laplacian tout tin tin.labels]⟩,
      ?_, ?_, rfl, rfl, fun rho => rfl⟩
    · simp [fast_laplacian, h1]
    · simp [fast_laplacian, h1]
  · have hprod : tout.labels.length * tin.labels.length ≠ 1 := by
      intro hcontra
      exact h1 (hw.trans (mul_eq_one.mp hcontra).1)
    have hstd : fast_laplacian tout tin tout.labels tin.labels ("std") =
        .ok ⟨tout.labels.map (fun c => ddLab c), tout.labels.map
          (fun c => _scalar_laplacian (tout.extract [c]) tin tin.labels)⟩ := by
      simp [fast_laplacian, h1]
    have hdg : fast_laplacian tout tin tout.labels tin.labels ("divgrad") =
        .ok ⟨tout.labels.map (fun c => ddLab c),
          (tout.labels.map (fun c => (fast_div
            (fast_grad tout tin tout.labels tin.labels) tin
            (tin.labels.map (fun i => dLab c i)) tin.labels).cols)).flatten⟩ := by
      simp [fast_laplacian, h1]
    have hdiv : ∀ c ∈ tout.labels, ∃ e, (fast_div
        (fast_grad tout tin tout.labels tin.labels) tin
        (tin.labels.map (fun i => dLab c i)) tin.labels).cols = [e] ∧
        ∀ rho, e.evalQ rho = (tin.labels.map
          (fun i => (lapT (tout.colOf c) i).evalQ rho)).sum :=
      fun c hcm =>
        divgrad_col_closed tout tin c hcm h1 hprod hd0 hinj1 (hinj2 c hcm)
    have heval : ∀ rho : String → ℚ,
        (tout.labels.map (fun c => _scalar_laplacian (tout.extract [c]) tin
          tin.labels)).map (fun e => e.evalQ rho) =
        ((tout.labels.map (fun c => (fast_div
          (fast_grad tout tin tout.labels tin.labels) tin
          (tin.labels.map (fun i => dLab c i)) tin.labels).cols)).flatten).map
          (fun e => e.evalQ rho) := by
      intro rho
      rw [flatten_single_eval tout.labels
        (fun c => (fast_div (fast_grad tout tin tout.labels tin.labels) tin
          (tin.labels.map (fun i => dLab c i)) tin.labels).cols)
        (fun c rho2 => (tin.labels.map
          (fun i => (lapT (tout.colOf c) i).evalQ rho2)).sum) hdiv rho]
      rw [List.map_map]
      refine List.map_congr_left (fun c hcm => ?_)
      show (_scalar_laplacian (tout.extract [c]) tin tin.labels).evalQ rho = _
      rw [scalar_lap_closed tout tin c tin.labels (fun _ h => h) (hinj2 c hcm),
        evalQ_foldr_add, List.map_map]
      rfl
    have hones : tout.labels.map (List.length ∘ (fun c => (fast_div
        (fast_grad tout tin tout.labels tin.labels) tin
        (tin.labels.map (fun i => dLab c i)) tin.labels).cols)) =
        tout.labels.map (fun c => 1) :=
      List.map_congr_left (fun c hcm => by
        obtain ⟨e, he, _⟩ := hdiv c hcm
        simp [Function.comp, he])
    refine ⟨_, _, hstd, hdg, rfl, ?_, heval⟩
    show (tout.labels.map (fun c => _scalar_laplacian (tout.extract [c]) tin
      tin.labels)).length = ((tout.labels.map (fun c => (fast_div
        (fast_grad tout tin tout.labels tin.labels) tin
        (tin.labels.map (fun i => dLab c i)) tin.labels).cols)).flatten).length
    rw [List.length_map, List.length_flatten, List.map_map, hones, sum_map_one]

/-- C6 witness: a two-component output over two input variables, with
columns `x*x` and `y*y`, satisfies the collision-freedom hypotheses and
the two methods agree. -/
theorem laplacian_std_divgrad_equiv_check :
    ∃ ts td : LabelTensor,
      fast_laplacian
        ⟨["u", "v"], [Expr.mul (Expr.var ("x")) (Expr.var ("x")),
          Expr.mul (Expr.var ("y")) (Expr.var ("y"))]⟩
        ⟨["x", "y"], [Expr.var ("x"), Expr.var ("y")]⟩
        (LabelTensor.labels ⟨["u", "v"], [Expr.mul (Expr.var ("x")) (Expr.var ("x")),
          Expr.mul (Expr.var ("y")) (Expr.var ("y"))]⟩)
        (LabelTensor.labels ⟨["x", "y"], [Expr.var ("x"), Expr.var ("y")]⟩)
        ("std") = .ok ts ∧
      fast_laplacian
        ⟨["u", "v"], [Expr.mul (Expr.var ("x")) (Expr.var ("x")),
          Expr.mul (Expr.var ("y")) (Expr.var ("y"))]⟩
        ⟨["x", "y"], [Expr.var ("x"), Expr.var ("y")]⟩
        (LabelTensor.labels ⟨["u", "v"], [Expr.mul (Expr.var ("x")) (Expr.var ("x")),
          Expr.mul (Expr.var ("y")) (Expr.var ("y"))]⟩)
        (LabelTensor.labels ⟨["x", "y"], [Expr.var ("x"), Expr.var ("y")]⟩)
        ("divgrad") = .ok td ∧
      ts.labels = td.labels ∧
      ts.cols.length = td.cols.length ∧
      ∀ rho : String → ℚ, ts.cols.map (fun e => e.evalQ rho) =
        td.cols.map (fun e => e.evalQ rho) :=
  laplacian_std_divgrad_equiv
    ⟨["u", "v"], [Expr.mul (Expr.var ("x")) (Expr.var ("x")),
      Expr.mul (Expr.var ("y")) (Expr.var ("y"))]⟩
    ⟨["x", "y"], [Expr.var ("x"), Expr.var ("y")]⟩
    (by decide) (by decide) (by decide) (by decide)
